import Mathlib

/-!
Shallow embedding of the csv-backtester core (engine.py, models.py,
strategies.py) and proofs about it.

Modelling choices:
* Python floats are modelled as rationals (`ℚ`); quantities and cash are
  exact, as the claims under study are about control flow and accounting,
  not rounding.
* Python dicts (`positions`, `_last_prices`) are association lists that
  preserve insertion order, as Python dicts do.
* The call `random.random() < self.fail_prob` in `_execute_order` is
  modelled by a stream of booleans (`rng : List Bool`), one consumed per
  execution attempt; `true` means the draw fell below `fail_prob`.
* Exceptions are modelled with `Except` / explicit error components:
  `Order.validate` returns `Except String Unit`, `_execute_order` returns
  its (possibly unchanged) ledger together with an optional error message,
  and a strategy's `generate_signals` is an abstract function that either
  returns signals plus a new state or an error message plus the state at
  the point the exception was raised.
* Strategies are parametric in a state type `S` with a step function
  `Gen S`; the two concrete strategies instantiate it.
-/

namespace Backtester

/-- Model of the Python `str.upper` restricted to character-wise upcasing,
as used by `_create_order` on action strings. -/
def strUpper (s : String) : String := ⟨s.data.map Char.toUpper⟩

/-- From models.py: `MarketDataPoint` (frozen dataclass); timestamps are
modelled as integers, ordered like datetimes. -/
structure MarketDataPoint where
  timestamp : Int
  symbol : String
  price : ℚ
deriving DecidableEq, Repr

/-- A strategy signal `(action, symbol, qty, price)`. -/
structure Sig where
  action : String
  symbol : String
  qty : Int
  price : ℚ
deriving DecidableEq, Repr

/-- From models.py: `Order` (mutable dataclass). -/
structure Order where
  symbol : String
  quantity : Int
  price : ℚ
  side : String
  status : String
deriving DecidableEq, Repr

/-- From models.py: `Order.validate`: raising `OrderError` is modelled as
returning `.error` with the exception message. -/
def Order.validate (o : Order) : Except String Unit :=
  if o.quantity ≤ 0 then .error "Quantity must be positive."
  else if o.price ≤ 0 then .error "Price must be positive."
  else if ¬ (o.side = "BUY" ∨ o.side = "SELL") then
    .error "Side must be BUY or SELL."
  else .ok ()

/-- One entry of `self.positions[symbol]`: `{"quantity": ..., "avg_price": ...}`. -/
structure Pos where
  quantity : Int
  avg_price : ℚ
deriving DecidableEq, Repr

/-- Ledger state owned by the engine: cash (`self.portfolio["CASH"]["amount"]`),
`self.positions` and `self._last_prices` as insertion-ordered association lists. -/
structure Ledger where
  cash : ℚ
  positions : List (String × Pos)
  lastPrices : List (String × ℚ)
deriving DecidableEq, Repr

/-- Association-list lookup, modelling Python dict lookup. -/
def lookupA {α : Type} : List (String × α) → String → Option α
  | [], _ => none
  | (k, v) :: rest, key => if k = key then some v else lookupA rest key

/-- Association-list store, modelling Python dict assignment: an existing
key keeps its position, a new key is appended at the end. -/
def updA {α : Type} : List (String × α) → String → α → List (String × α)
  | [], key, v => [(key, v)]
  | (k, w) :: rest, key, v =>
    if k = key then (key, v) :: rest else (k, w) :: updA rest key v

/-- From engine.py: `_ensure_symbol`: lazily create a `{quantity: 0, avg_price: 0.0}`
entry for an unseen symbol. -/
def ensureSymbol (led : Ledger) (sym : String) : Ledger :=
  match lookupA led.positions sym with
  | some _ => led
  | none => { led with positions := led.positions ++ [(sym, ⟨0, 0⟩)] }

/-- From engine.py: `_equity`: cash plus quantity times last price summed over
all recorded positions, price defaulting to 0. -/
def Ledger.equity (led : Ledger) : ℚ :=
  led.positions.foldl
    (fun acc sp => acc + (sp.2.quantity : ℚ) * ((lookupA led.lastPrices sp.1).getD 0))
    led.cash

/-- The order object built inside engine.py `_create_order`, before
validation: side is BUY iff the upcased action equals "BUY", else SELL;
status starts at NEW. -/
def mkOrder (action symbol : String) (qty : Int) (price : ℚ) : Order :=
  { symbol := symbol, quantity := qty, price := price,
    side := if strUpper action = "BUY" then "BUY" else "SELL",
    status := "NEW" }

/-- From engine.py: `_create_order`: build the order and validate it; a raised
`OrderError` becomes `.error`. -/
def createOrder (action symbol : String) (qty : Int) (price : ℚ) : Except String Order :=
  let o := mkOrder action symbol qty price
  match o.validate with
  | .error e => .error e
  | .ok _ => .ok o

/-- Result of `_execute_order`: the (mutated) order, the ledger after the
call, and the `ExecutionError` message when one was raised. -/
structure ExecResult where
  order : Order
  ledger : Ledger
  err : Option String
deriving DecidableEq, Repr

/-- The `ExecutionError` message of the simulated-failure path. -/
def simFailMsg (o : Order) : String :=
  "Simulated execution failure for " ++ o.side ++ " "
    ++ toString o.quantity ++ " " ++ o.symbol ++ " @ " ++ toString o.price

/-- The `ExecutionError` message of an unaffordable BUY. -/
def noCashMsg (o : Order) : String :=
  "Insufficient cash to buy " ++ toString o.quantity ++ " " ++ o.symbol
    ++ " at " ++ toString o.price

/-- The `ExecutionError` message of a SELL exceeding the position. -/
def noPosMsg (o : Order) : String :=
  "Insufficient position to sell " ++ toString o.quantity ++ " " ++ o.symbol

/-- The position record `_execute_order` works on after `_ensure_symbol`:
the recorded one, or a fresh zero entry. -/
def posOf (led : Ledger) (sym : String) : Pos :=
  (lookupA led.positions sym).getD ⟨0, 0⟩

/-- From engine.py: `_execute_order`. `fail` is the outcome of
`random.random() < self.fail_prob`. On the simulated-failure path nothing
is touched; otherwise `_ensure_symbol` runs first, then the BUY branch
checks affordability and applies the weighted-average-cost update, and
the SELL branch checks the position and credits cash. -/
def executeOrder (fail : Bool) (led : Ledger) (o : Order) : ExecResult :=
  if fail then
    { order := { o with status := "ERROR" }, ledger := led,
      err := some (simFailMsg o) }
  else
    let led1 := ensureSymbol led o.symbol
    let pos := posOf led1 o.symbol
    if o.side = "BUY" then
      let cost := (o.quantity : ℚ) * o.price
      if led1.cash < cost then
        { order := { o with status := "REJECTED" }, ledger := led1,
          err := some (noCashMsg o) }
      else
        let totalCost := pos.avg_price * (pos.quantity : ℚ) + cost
        let totalQty := pos.quantity + o.quantity
        { order := { o with status := "FILLED" },
          ledger := { led1 with
            cash := led1.cash - cost,
            positions := updA led1.positions o.symbol
              ⟨totalQty, if totalQty = 0 then 0 else totalCost / (totalQty : ℚ)⟩ },
          err := none }
    else
      if pos.quantity < o.quantity then
        { order := { o with status := "REJECTED" }, ledger := led1,
          err := some (noPosMsg o) }
      else
        { order := { o with status := "FILLED" },
          ledger := { led1 with
            cash := led1.cash + (o.quantity : ℚ) * o.price,
            positions := updA led1.positions o.symbol
              ⟨pos.quantity - o.quantity,
               if pos.quantity - o.quantity = 0 then 0 else pos.avg_price⟩ },
          err := none }

/-- Full engine state: registered strategies (of abstract state type `S`),
the ledger, the remaining random draws, and the three output logs. -/
structure EngineState (S : Type) where
  strategies : List S
  ledger : Ledger
  rng : List Bool
  orderHistory : List Order
  errors : List String
  equityCurve : List (Int × ℚ)

/-- Abstract `generate_signals`: from a strategy state and a tick, either
signals plus the new state, or (modelling a raised exception) an error
message plus the state at the raise point. -/
def Gen (S : Type) : Type := S → MarketDataPoint → Except (String × S) (List Sig × S)

/-- Message format `f"StrategyError: {e} at {tick.timestamp}"`. -/
def stratErrMsg (e : String) (ts : Int) : String :=
  "StrategyError: " ++ e ++ " at " ++ toString ts

/-- Message format `f"OrderError: {oe}"`. -/
def orderErrMsg (e : String) : String := "OrderError: " ++ e

/-- Message format `f"ExecutionError: {xe}"`. -/
def execErrMsg (e : String) : String := "ExecutionError: " ++ e

/-- One iteration of the strategy loop in `process`: accumulate the new
strategy state, its signals, and any strategy-error message. -/
def stratStep {S : Type} (gen : Gen S) (t : MarketDataPoint)
    (acc : List S × List Sig × List String) (s : S) : List S × List Sig × List String :=
  match gen s t with
  | .ok (out, s1) => (acc.1 ++ [s1], acc.2.1 ++ out, acc.2.2)
  | .error (e, s1) => (acc.1 ++ [s1], acc.2.1, acc.2.2 ++ [stratErrMsg e t.timestamp])

/-- The strategy loop of `process` over all registered strategies. -/
def runStrategies {S : Type} (gen : Gen S) (t : MarketDataPoint) (ss : List S) :
    List S × List Sig × List String :=
  ss.foldl (stratStep gen t) ([], [], [])

/-- One iteration of the signal loop in `process`: create and validate the
order (an `OrderError` is logged and nothing else happens), otherwise
append the order to history, execute it consuming one random draw, and
log any `ExecutionError`. -/
def processSignal {S : Type} (st : EngineState S) (sig : Sig) : EngineState S :=
  match createOrder sig.action sig.symbol sig.qty sig.price with
  | .error e => { st with errors := st.errors ++ [orderErrMsg e] }
  | .ok o =>
    let r := executeOrder st.rng.headI st.ledger o
    { st with
      ledger := r.ledger,
      rng := st.rng.tail,
      orderHistory := st.orderHistory ++ [r.order],
      errors := match r.err with
        | some m => st.errors ++ [execErrMsg m]
        | none => st.errors }

/-- The body of the per-tick loop of `process` up to but excluding the
equity snapshot: update `_last_prices`, run every strategy, then process
every collected signal. -/
def tickAfterSignals {S : Type} (gen : Gen S) (st : EngineState S)
    (t : MarketDataPoint) : EngineState S :=
  let st0 := { st with ledger :=
    { st.ledger with lastPrices := updA st.ledger.lastPrices t.symbol t.price } }
  let r := runStrategies gen t st0.strategies
  let st1 := { st0 with strategies := r.1, errors := st0.errors ++ r.2.2 }
  r.2.1.foldl processSignal st1

/-- The full per-tick body of `process`: signals, then the unconditional
equity snapshot `(tick.timestamp, self._equity())`. -/
def processTick {S : Type} (gen : Gen S) (st : EngineState S)
    (t : MarketDataPoint) : EngineState S :=
  let st2 := tickAfterSignals gen st t
  { st2 with equityCurve := st2.equityCurve ++ [(t.timestamp, st2.ledger.equity)] }

/-- The defensive `sorted(ticks, key=lambda t: t.timestamp)` (stable). -/
def sortTicks (ticks : List MarketDataPoint) : List MarketDataPoint :=
  ticks.mergeSort (fun a b => decide (a.timestamp ≤ b.timestamp))

/-- From engine.py: `process`: sort the ticks, then fold the per-tick body. -/
def process {S : Type} (gen : Gen S) (st : EngineState S)
    (ticks : List MarketDataPoint) : EngineState S :=
  (sortTicks ticks).foldl (processTick gen) st

/-- From engine.py: `BacktestEngine.__init__`: fresh ledger and empty logs. -/
def initEngine {S : Type} (strategies : List S) (initialCash : ℚ)
    (rng : List Bool) : EngineState S :=
  { strategies := strategies,
    ledger := { cash := initialCash, positions := [], lastPrices := [] },
    rng := rng, orderHistory := [], errors := [], equityCurve := [] }

/-- From strategies.py: `MovingAverageCrossover` private state. -/
structure MAState where
  symbol : String
  fast : Nat
  slow : Nat
  qty : Int
  prices : List ℚ
  prevDiff : Option ℚ
deriving DecidableEq, Repr

/-- Model of a bounded deque append with capacity `cap`: the oldest entries are evicted so that
at most `cap` remain. -/
def dequePush (cap : Nat) (xs : List ℚ) (x : ℚ) : List ℚ :=
  let ys := xs ++ [x]
  if cap < ys.length then ys.drop (ys.length - cap) else ys

/-- From strategies.py: `MovingAverageCrossover._sma`: `none` models the NaN
returned when fewer than `n` prices are stored; otherwise the mean of the
last `n` prices. -/
def smaOf (prices : List ℚ) (n : Nat) : Option ℚ :=
  if prices.length < n then none
  else some ((prices.drop (prices.length - n)).sum / (n : ℚ))

/-- From strategies.py: `MovingAverageCrossover.generate_signals`. -/
def maGen (s : MAState) (t : MarketDataPoint) : List Sig × MAState :=
  if t.symbol = s.symbol then
    let ps := dequePush s.slow s.prices t.price
    let s1 := { s with prices := ps }
    if ps.length < s.slow then ([], s1)
    else
      match smaOf ps s.fast, smaOf ps s.slow with
      | some fastMa, some slowMa =>
        let diff := fastMa - slowMa
        let sigs :=
          match s.prevDiff with
          | some pd =>
            if pd ≤ 0 ∧ 0 < diff then [⟨"BUY", s.symbol, s.qty, t.price⟩]
            else if 0 ≤ pd ∧ diff < 0 then [⟨"SELL", s.symbol, s.qty, t.price⟩]
            else []
          | none => []
        (sigs, { s1 with prevDiff := some diff })
      | _, _ => ([], s1)
  else ([], s)

/-- From strategies.py: `MomentumStrategy` private state. -/
structure MomState where
  symbol : String
  lb : Nat
  th : ℚ
  qty : Int
  prices : List ℚ
deriving DecidableEq, Repr

/-- From strategies.py: `MomentumStrategy.generate_signals`. -/
def momGen (s : MomState) (t : MarketDataPoint) : List Sig × MomState :=
  if t.symbol = s.symbol then
    let ps := dequePush (s.lb + 1) s.prices t.price
    let s1 := { s with prices := ps }
    if ps.length ≤ s.lb then ([], s1)
    else
      let past := ps.headI
      if past ≤ 0 then ([], s1)
      else
        let ret := t.price / past - 1
        if s.th ≤ ret then ([⟨"BUY", s.symbol, s.qty, t.price⟩], s1)
        else if ret ≤ -s.th then ([⟨"SELL", s.symbol, s.qty, t.price⟩], s1)
        else ([], s1)
  else ([], s)

/-- The MA crossover strategy as an engine strategy (it never raises). -/
def maGenE : Gen MAState := fun s t => .ok (maGen s t)

/-- The momentum strategy as an engine strategy (it never raises). -/
def momGenE : Gen MomState := fun s t => .ok (momGen s t)

/-- The value `_sma` returns when the window holds at least `n` prices:
the mean of the last `n` stored prices. -/
def smaVal (prices : List ℚ) (n : Nat) : ℚ :=
  (prices.drop (prices.length - n)).sum / (n : ℚ)

/-- Invariant over the ledger: nonnegative cash, and every recorded
position has a nonnegative quantity and average price, with the average
price zero whenever the quantity is zero. -/
def LedgerInv (led : Ledger) : Prop :=
  0 ≤ led.cash ∧ ∀ sp ∈ led.positions,
    0 ≤ sp.2.quantity ∧ 0 ≤ sp.2.avg_price ∧ (sp.2.quantity = 0 → sp.2.avg_price = 0)

/-- A terminal order status. -/
def TerminalStatus (s : String) : Prop :=
  s = "FILLED" ∨ s = "REJECTED" ∨ s = "ERROR"

/-! Association-list lemmas. -/

theorem lookupA_mem {α : Type} {xs : List (String × α)} {k : String} {v : α}
    (h : lookupA xs k = some v) : (k, v) ∈ xs := by
  induction xs with
  | nil => simp [lookupA] at h
  | cons x rest ih =>
    obtain ⟨k', v'⟩ := x
    by_cases hk : k' = k
    · subst hk
      simp [lookupA] at h
      simp [h]
    · simp [lookupA, hk] at h
      exact List.mem_cons_of_mem _ (ih h)

theorem mem_updA {α : Type} {xs : List (String × α)} {k : String} {v : α}
    {p : String × α} (h : p ∈ updA xs k v) : p ∈ xs ∨ p = (k, v) := by
  induction xs with
  | nil => simp [updA] at h; right; exact h
  | cons x rest ih =>
    obtain ⟨k', v'⟩ := x
    by_cases hk : k' = k
    · simp [updA, hk] at h
      rcases h with h | h
      · right; simp [h]
      · left; exact List.mem_cons_of_mem _ h
    · simp [updA, hk] at h
      rcases h with h | h
      · left; simp [h]
      · rcases ih h with h' | h'
        · left; exact List.mem_cons_of_mem _ h'
        · right; exact h'

theorem lookupA_updA_self {α : Type} (xs : List (String × α)) (k : String) (v : α) :
    lookupA (updA xs k v) k = some v := by
  induction xs with
  | nil => simp [updA, lookupA]
  | cons x rest ih =>
    obtain ⟨k', v'⟩ := x
    by_cases hk : k' = k
    · simp [updA, hk, lookupA]
    · simp [updA, hk, lookupA, ih]

theorem lookupA_updA_ne {α : Type} (xs : List (String × α)) {k k' : String} (v : α)
    (h : k' ≠ k) : lookupA (updA xs k v) k' = lookupA xs k' := by
  induction xs with
  | nil => simp [updA, lookupA, Ne.symm h]
  | cons x rest ih =>
    obtain ⟨k0, v0⟩ := x
    by_cases hk : k0 = k
    · subst hk
      simp [updA, lookupA, Ne.symm h, h]
    · by_cases hk' : k0 = k'
      · simp [updA, hk, lookupA, hk', h]
      · simp [updA, hk, lookupA, hk', ih]

theorem lookupA_append_single_ne {α : Type} (xs : List (String × α))
    {k sym : String} (v : α) (h : k ≠ sym) :
    lookupA (xs ++ [(sym, v)]) k = lookupA xs k := by
  induction xs with
  | nil => simp [lookupA, Ne.symm h]
  | cons x rest ih =>
    obtain ⟨k0, v0⟩ := x
    by_cases hk : k0 = k
    · simp [lookupA, hk]
    · simp [lookupA, hk, ih]

theorem lookupA_append_self_none {α : Type} {xs : List (String × α)} {sym : String}
    (h : lookupA xs sym = none) (v : α) :
    lookupA (xs ++ [(sym, v)]) sym = some v := by
  induction xs with
  | nil => simp [lookupA]
  | cons x rest ih =>
    obtain ⟨k0, v0⟩ := x
    by_cases hk : k0 = sym
    · simp [lookupA, hk] at h
    · simp [lookupA, hk] at h ⊢
      exact ih h

theorem lookupA_append_some {α : Type} {xs : List (String × α)} {k : String}
    {v : α} (ys : List (String × α)) (h : lookupA xs k = some v) :
    lookupA (xs ++ ys) k = some v := by
  induction xs with
  | nil => simp [lookupA] at h
  | cons x rest ih =>
    obtain ⟨k0, v0⟩ := x
    by_cases hk : k0 = k
    · simp [lookupA, hk] at h ⊢; exact h
    · simp [lookupA, hk] at h ⊢; exact ih h

/-! Lemmas about `ensureSymbol`. -/

theorem ensureSymbol_cash (led : Ledger) (sym : String) :
    (ensureSymbol led sym).cash = led.cash := by
  unfold ensureSymbol
  cases lookupA led.positions sym <;> rfl

theorem ensureSymbol_lastPrices (led : Ledger) (sym : String) :
    (ensureSymbol led sym).lastPrices = led.lastPrices := by
  unfold ensureSymbol
  cases lookupA led.positions sym <;> rfl

theorem ensureSymbol_lookup_some {led : Ledger} {sym s' : String} {p : Pos}
    (h : lookupA led.positions s' = some p) :
    lookupA (ensureSymbol led sym).positions s' = some p := by
  unfold ensureSymbol
  cases hs : lookupA led.positions sym
  · exact lookupA_append_some _ h
  · exact h

theorem ensureSymbol_lookup_self (led : Ledger) (sym : String) :
    lookupA (ensureSymbol led sym).positions sym = some (posOf led sym) := by
  unfold ensureSymbol posOf
  cases hs : lookupA led.positions sym with
  | none =>
    simp only [hs, Option.getD_none]
    exact lookupA_append_self_none hs _
  | some p => simp [hs]

theorem ensureSymbol_lookup_ne {led : Ledger} {sym s' : String} (h : s' ≠ sym) :
    lookupA (ensureSymbol led sym).positions s' = lookupA led.positions s' := by
  unfold ensureSymbol
  cases hs : lookupA led.positions sym
  · exact lookupA_append_single_ne _ _ h
  · rfl

theorem ensureSymbol_positions (led : Ledger) (sym : String) :
    (ensureSymbol led sym).positions = led.positions ∨
      (lookupA led.positions sym = none ∧
        (ensureSymbol led sym).positions = led.positions ++ [(sym, ⟨0, 0⟩)]) := by
  unfold ensureSymbol
  cases hs : lookupA led.positions sym
  · right; exact ⟨rfl, rfl⟩
  · left; rfl

/-! Branch equations for `executeOrder`. -/

theorem executeOrder_fail (led : Ledger) (o : Order) :
    executeOrder true led o =
      ⟨{ o with status := "ERROR" }, led, some (simFailMsg o)⟩ := rfl

theorem executeOrder_buy_reject (led : Ledger) (o : Order) (hside : o.side = "BUY")
    (hc : (ensureSymbol led o.symbol).cash < (o.quantity : ℚ) * o.price) :
    executeOrder false led o =
      ⟨{ o with status := "REJECTED" }, ensureSymbol led o.symbol, some (noCashMsg o)⟩ := by
  simp [executeOrder, hside, hc]

theorem executeOrder_buy_fill (led : Ledger) (o : Order) (hside : o.side = "BUY")
    (hc : ¬ (ensureSymbol led o.symbol).cash < (o.quantity : ℚ) * o.price) :
    executeOrder false led o =
      ⟨{ o with status := "FILLED" },
       { cash := (ensureSymbol led o.symbol).cash - (o.quantity : ℚ) * o.price,
         positions := updA (ensureSymbol led o.symbol).positions o.symbol
           ⟨(posOf (ensureSymbol led o.symbol) o.symbol).quantity + o.quantity,
            if (posOf (ensureSymbol led o.symbol) o.symbol).quantity + o.quantity = 0 then 0
            else ((posOf (ensureSymbol led o.symbol) o.symbol).avg_price *
                    ((posOf (ensureSymbol led o.symbol) o.symbol).quantity : ℚ) +
                  (o.quantity : ℚ) * o.price) /
              (((posOf (ensureSymbol led o.symbol) o.symbol).quantity + o.quantity : Int) : ℚ)⟩,
         lastPrices := (ensureSymbol led o.symbol).lastPrices },
       none⟩ := by
  simp [executeOrder, hside, hc]

theorem executeOrder_sell_reject (led : Ledger) (o : Order) (hside : ¬ o.side = "BUY")
    (hc : (posOf (ensureSymbol led o.symbol) o.symbol).quantity < o.quantity) :
    executeOrder false led o =
      ⟨{ o with status := "REJECTED" }, ensureSymbol led o.symbol, some (noPosMsg o)⟩ := by
  simp [executeOrder, hside, hc]

theorem executeOrder_sell_fill (led : Ledger) (o : Order) (hside : ¬ o.side = "BUY")
    (hc : ¬ (posOf (ensureSymbol led o.symbol) o.symbol).quantity < o.quantity) :
    executeOrder false led o =
      ⟨{ o with status := "FILLED" },
       { cash := (ensureSymbol led o.symbol).cash + (o.quantity : ℚ) * o.price,
         positions := updA (ensureSymbol led o.symbol).positions o.symbol
           ⟨(posOf (ensureSymbol led o.symbol) o.symbol).quantity - o.quantity,
            if (posOf (ensureSymbol led o.symbol) o.symbol).quantity - o.quantity = 0 then 0
            else (posOf (ensureSymbol led o.symbol) o.symbol).avg_price⟩,
         lastPrices := (ensureSymbol led o.symbol).lastPrices },
       none⟩ := by
  simp [executeOrder, hside, hc]

/-! Validation and order-creation lemmas. -/

theorem mkOrder_side (action symbol : String) (qty : Int) (price : ℚ) :
    (mkOrder action symbol qty price).side = "BUY" ∨
      (mkOrder action symbol qty price).side = "SELL" := by
  by_cases h : strUpper action = "BUY" <;> simp [mkOrder, h]

theorem validate_ok_iff (o : Order) :
    o.validate = .ok () ↔
      0 < o.quantity ∧ 0 < o.price ∧ (o.side = "BUY" ∨ o.side = "SELL") := by
  unfold Order.validate
  by_cases h1 : o.quantity ≤ 0
  · simp [h1, not_lt.mpr h1]
  · by_cases h2 : o.price ≤ 0
    · simp [h1, h2, not_lt.mpr h2]
    · by_cases h3 : o.side = "BUY" ∨ o.side = "SELL"
      · simp [h1, h2, h3, not_le.mp h1, not_le.mp h2]
      · simp [h1, h2, h3]

theorem createOrder_eq_ok (action symbol : String) (qty : Int) (price : ℚ) (o : Order) :
    createOrder action symbol qty price = .ok o ↔
      0 < qty ∧ 0 < price ∧ o = mkOrder action symbol qty price := by
  constructor
  · intro h
    simp only [createOrder] at h
    cases hv : (mkOrder action symbol qty price).validate with
    | ok u =>
      obtain ⟨⟩ := u
      rw [hv] at h
      simp at h
      rw [validate_ok_iff] at hv
      simp only [mkOrder] at hv
      exact ⟨hv.1, hv.2.1, h.symm⟩
    | error e =>
      rw [hv] at h
      simp at h
  · rintro ⟨hq, hp, ho⟩
    have hv : (mkOrder action symbol qty price).validate = .ok () := by
      rw [validate_ok_iff]
      exact ⟨hq, hp, mkOrder_side action symbol qty price⟩
    simp only [createOrder]
    rw [hv, ho]

theorem createOrder_eq_error (action symbol : String) (qty : Int) (price : ℚ)
    (h : qty ≤ 0 ∨ price ≤ 0) :
    ∃ e, createOrder action symbol qty price = .error e := by
  cases hv : (mkOrder action symbol qty price).validate with
  | ok u =>
    obtain ⟨⟩ := u
    rw [validate_ok_iff] at hv
    simp only [mkOrder] at hv
    exfalso
    rcases h with h | h
    · exact absurd hv.1 (not_lt.mpr h)
    · exact absurd hv.2.1 (not_lt.mpr h)
  | error e =>
    refine ⟨e, ?_⟩
    simp only [createOrder]
    rw [hv]

/-! Equity as an explicit sum. -/

theorem foldl_add_map {α : Type} (f : α → ℚ) :
    ∀ (l : List α) (c : ℚ), l.foldl (fun acc x => acc + f x) c = c + (l.map f).sum := by
  intro l
  induction l with
  | nil => simp
  | cons x rest ih => intro c; simp [ih, add_assoc]

theorem equity_eq_sum (led : Ledger) :
    led.equity = led.cash +
      (led.positions.map
        (fun sp => (sp.2.quantity : ℚ) * ((lookupA led.lastPrices sp.1).getD 0))).sum := by
  unfold Ledger.equity
  exact foldl_add_map _ led.positions led.cash

/-! Per-field behaviour of the engine loop pieces. -/

theorem processSignal_fields {S : Type} (st : EngineState S) (sig : Sig) :
    (processSignal st sig).equityCurve = st.equityCurve ∧
    (processSignal st sig).strategies = st.strategies := by
  cases h : createOrder sig.action sig.symbol sig.qty sig.price <;>
    simp [processSignal, h]

theorem foldl_processSignal_fields {S : Type} :
    ∀ (sigs : List Sig) (st : EngineState S),
    ((sigs.foldl processSignal st).equityCurve = st.equityCurve ∧
     (sigs.foldl processSignal st).strategies = st.strategies) := by
  intro sigs
  induction sigs with
  | nil => intro st; exact ⟨rfl, rfl⟩
  | cons sg rest ih =>
    intro st
    have h1 := processSignal_fields st sg
    have h2 := ih (processSignal st sg)
    simp only [List.foldl_cons]
    exact ⟨h2.1.trans h1.1, h2.2.trans h1.2⟩

theorem tickAfterSignals_equityCurve {S : Type} (gen : Gen S) (st : EngineState S)
    (t : MarketDataPoint) :
    (tickAfterSignals gen st t).equityCurve = st.equityCurve := by
  unfold tickAfterSignals
  exact (foldl_processSignal_fields _ _).1

theorem processTick_equityCurve {S : Type} (gen : Gen S) (st : EngineState S)
    (t : MarketDataPoint) :
    (processTick gen st t).equityCurve =
      st.equityCurve ++ [(t.timestamp, (tickAfterSignals gen st t).ledger.equity)] := by
  unfold processTick
  simp [tickAfterSignals_equityCurve]

theorem foldl_processTick_len {S : Type} (gen : Gen S) :
    ∀ (ts : List MarketDataPoint) (st : EngineState S),
    ((ts.foldl (processTick gen) st).equityCurve).length =
      st.equityCurve.length + ts.length := by
  intro ts
  induction ts with
  | nil => intro st; simp
  | cons t rest ih =>
    intro st
    simp only [List.foldl_cons, ih, processTick_equityCurve]
    simp
    omega

theorem process_equity_len {S : Type} (gen : Gen S) (st : EngineState S)
    (ticks : List MarketDataPoint) :
    (process gen st ticks).equityCurve.length = st.equityCurve.length + ticks.length := by
  unfold process sortTicks
  rw [foldl_processTick_len, List.length_mergeSort]

/-! The ledger invariant of claim C7 and its preservation. -/

theorem posOf_inv {led : Ledger} (hinv : LedgerInv led) (sym : String) :
    0 ≤ (posOf led sym).quantity ∧ 0 ≤ (posOf led sym).avg_price := by
  unfold posOf
  cases h : lookupA led.positions sym with
  | none => simp
  | some p =>
    have := hinv.2 _ (lookupA_mem h)
    simp [this.1, this.2.1]

theorem LedgerInv_ensureSymbol {led : Ledger} (hinv : LedgerInv led) (sym : String) :
    LedgerInv (ensureSymbol led sym) := by
  unfold ensureSymbol
  cases h : lookupA led.positions sym with
  | some p => exact hinv
  | none =>
    refine ⟨hinv.1, ?_⟩
    intro sp hsp
    rcases List.mem_append.mp hsp with hsp | hsp
    · exact hinv.2 _ hsp
    · simp at hsp
      simp [hsp]

theorem LedgerInv_executeOrder {led : Ledger} {o : Order} (fail : Bool)
    (hq : 0 < o.quantity) (hp : 0 < o.price) (hinv : LedgerInv led) :
    LedgerInv (executeOrder fail led o).ledger := by
  have hinv1 := LedgerInv_ensureSymbol hinv o.symbol
  have hpos := posOf_inv hinv1 o.symbol
  have hqq : (0 : ℚ) ≤ (o.quantity : ℚ) * o.price := by
    apply mul_nonneg _ (le_of_lt hp)
    exact_mod_cast le_of_lt hq
  cases fail with
  | true => rw [executeOrder_fail]; exact hinv
  | false =>
    by_cases hside : o.side = "BUY"
    · by_cases hc : (ensureSymbol led o.symbol).cash < (o.quantity : ℚ) * o.price
      · rw [executeOrder_buy_reject led o hside hc]; exact hinv1
      · rw [executeOrder_buy_fill led o hside hc]
        dsimp only
        refine ⟨sub_nonneg.mpr (not_lt.mp hc), ?_⟩
        intro sp hsp
        rcases mem_updA hsp with hsp | hsp
        · exact hinv1.2 _ hsp
        · subst hsp
          dsimp only
          by_cases h0 : (posOf (ensureSymbol led o.symbol) o.symbol).quantity + o.quantity = 0
          · exact ⟨by omega, by simp [h0], by simp [h0]⟩
          · refine ⟨by omega, ?_, fun hcon => absurd hcon h0⟩
            rw [if_neg h0]
            apply div_nonneg
            · have h1 : (0 : ℚ) ≤ (posOf (ensureSymbol led o.symbol) o.symbol).avg_price *
                  ((posOf (ensureSymbol led o.symbol) o.symbol).quantity : ℚ) := by
                apply mul_nonneg hpos.2
                exact_mod_cast hpos.1
              linarith
            · exact_mod_cast
                (by omega : (0 : Int) ≤ (posOf (ensureSymbol led o.symbol) o.symbol).quantity + o.quantity)
    · by_cases hc : (posOf (ensureSymbol led o.symbol) o.symbol).quantity < o.quantity
      · rw [executeOrder_sell_reject led o hside hc]; exact hinv1
      · rw [executeOrder_sell_fill led o hside hc]
        dsimp only
        refine ⟨add_nonneg hinv1.1 hqq, ?_⟩
        · intro sp hsp
          rcases mem_updA hsp with hsp | hsp
          · exact hinv1.2 _ hsp
          · subst hsp
            dsimp only
            refine ⟨by omega, ?_, ?_⟩
            · by_cases h0 : (posOf (ensureSymbol led o.symbol) o.symbol).quantity - o.quantity = 0
              · simp [h0]
              · simp [h0, hpos.2]
            · intro h0
              simp [h0]

theorem LedgerInv_processSignal {S : Type} (st : EngineState S) (sig : Sig)
    (hinv : LedgerInv st.ledger) : LedgerInv (processSignal st sig).ledger := by
  cases h : createOrder sig.action sig.symbol sig.qty sig.price with
  | error e => simpa [processSignal, h] using hinv
  | ok o =>
    have ho := (createOrder_eq_ok sig.action sig.symbol sig.qty sig.price o).mp h
    have hq : 0 < o.quantity := by rw [ho.2.2]; exact ho.1
    have hp : 0 < o.price := by rw [ho.2.2]; exact ho.2.1
    have hx := @LedgerInv_executeOrder st.ledger o st.rng.headI hq hp hinv
    simpa [processSignal, h] using hx

theorem LedgerInv_foldSignals {S : Type} :
    ∀ (sigs : List Sig) (st : EngineState S), LedgerInv st.ledger →
      LedgerInv ((sigs.foldl processSignal st)).ledger := by
  intro sigs
  induction sigs with
  | nil => intro st h; exact h
  | cons sg rest ih =>
    intro st h
    exact ih _ (LedgerInv_processSignal st sg h)

theorem LedgerInv_processTick {S : Type} (gen : Gen S) (st : EngineState S)
    (t : MarketDataPoint) (hinv : LedgerInv st.ledger) :
    LedgerInv (processTick gen st t).ledger := by
  unfold processTick tickAfterSignals
  apply LedgerInv_foldSignals
  exact ⟨hinv.1, hinv.2⟩

theorem LedgerInv_process {S : Type} (gen : Gen S) (st : EngineState S)
    (ticks : List MarketDataPoint) (hinv : LedgerInv st.ledger) :
    LedgerInv (process gen st ticks).ledger := by
  unfold process
  generalize sortTicks ticks = ts
  induction ts generalizing st with
  | nil => exact hinv
  | cons t rest ih =>
    exact ih _ (LedgerInv_processTick gen st t hinv)

/-! Order-history lemmas: the history is append-only and appended orders
carry a terminal status. -/

theorem executeOrder_status_terminal (fail : Bool) (led : Ledger) (o : Order) :
    TerminalStatus (executeOrder fail led o).order.status := by
  cases fail with
  | true => rw [executeOrder_fail]; right; right; rfl
  | false =>
    by_cases hside : o.side = "BUY"
    · by_cases hc : (ensureSymbol led o.symbol).cash < (o.quantity : ℚ) * o.price
      · rw [executeOrder_buy_reject led o hside hc]; right; left; rfl
      · rw [executeOrder_buy_fill led o hside hc]; left; rfl
    · by_cases hc : (posOf (ensureSymbol led o.symbol) o.symbol).quantity < o.quantity
      · rw [executeOrder_sell_reject led o hside hc]; right; left; rfl
      · rw [executeOrder_sell_fill led o hside hc]; left; rfl

theorem processSignal_history {S : Type} (st : EngineState S) (sig : Sig) :
    ∃ tl, (processSignal st sig).orderHistory = st.orderHistory ++ tl ∧
      ∀ o ∈ tl, TerminalStatus o.status := by
  cases h : createOrder sig.action sig.symbol sig.qty sig.price with
  | error e => exact ⟨[], by simp [processSignal, h], by simp⟩
  | ok o =>
    refine ⟨[(executeOrder st.rng.headI st.ledger o).order], by simp [processSignal, h], ?_⟩
    intro o' ho'
    simp at ho'
    subst ho'
    exact executeOrder_status_terminal st.rng.headI st.ledger o

theorem foldSignals_history {S : Type} :
    ∀ (sigs : List Sig) (st : EngineState S),
    ∃ tl, ((sigs.foldl processSignal st)).orderHistory = st.orderHistory ++ tl ∧
      ∀ o ∈ tl, TerminalStatus o.status := by
  intro sigs
  induction sigs with
  | nil => intro st; exact ⟨[], by simp, by simp⟩
  | cons sg rest ih =>
    intro st
    obtain ⟨tl1, h1, g1⟩ := processSignal_history st sg
    obtain ⟨tl2, h2, g2⟩ := ih (processSignal st sg)
    refine ⟨tl1 ++ tl2, ?_, ?_⟩
    · simp only [List.foldl_cons, h2, h1, List.append_assoc]
    · intro o ho
      rcases List.mem_append.mp ho with ho | ho
      · exact g1 _ ho
      · exact g2 _ ho

theorem processTick_history {S : Type} (gen : Gen S) (st : EngineState S)
    (t : MarketDataPoint) :
    ∃ tl, (processTick gen st t).orderHistory = st.orderHistory ++ tl ∧
      ∀ o ∈ tl, TerminalStatus o.status := by
  unfold processTick tickAfterSignals
  exact foldSignals_history _ _

theorem process_history {S : Type} (gen : Gen S) (st : EngineState S)
    (ticks : List MarketDataPoint) :
    ∃ tl, (process gen st ticks).orderHistory = st.orderHistory ++ tl ∧
      ∀ o ∈ tl, TerminalStatus o.status := by
  unfold process
  generalize sortTicks ticks = ts
  induction ts generalizing st with
  | nil => exact ⟨[], by simp, by simp⟩
  | cons t rest ih =>
    obtain ⟨tl1, h1, g1⟩ := processTick_history gen st t
    obtain ⟨tl2, h2, g2⟩ := ih (processTick gen st t)
    refine ⟨tl1 ++ tl2, ?_, ?_⟩
    · simp only [List.foldl_cons, h2, h1, List.append_assoc]
    · intro o ho
      rcases List.mem_append.mp ho with ho | ho
      · exact g1 _ ho
      · exact g2 _ ho

/-! Strategy-loop decomposition. -/

theorem foldl_stratStep {S : Type} (gen : Gen S) (t : MarketDataPoint) :
    ∀ (ss : List S) (acc : List S × List Sig × List String),
    ss.foldl (stratStep gen t) acc =
      (acc.1 ++ (runStrategies gen t ss).1,
       acc.2.1 ++ (runStrategies gen t ss).2.1,
       acc.2.2 ++ (runStrategies gen t ss).2.2) := by
  intro ss
  induction ss with
  | nil => intro acc; simp [runStrategies]
  | cons s rest ih =>
    intro acc
    have h1 := ih (stratStep gen t acc s)
    have h2 := ih (stratStep gen t ([], [], []) s)
    simp only [runStrategies, List.foldl_cons] at *
    rw [h1, h2]
    cases hgen : gen s t with
    | ok v =>
      obtain ⟨out, s1⟩ := v
      simp [stratStep, hgen, List.append_assoc]
    | error v =>
      obtain ⟨e, s1⟩ := v
      simp [stratStep, hgen, List.append_assoc]

theorem runStrategies_append {S : Type} (gen : Gen S) (t : MarketDataPoint)
    (xs ys : List S) :
    runStrategies gen t (xs ++ ys) =
      ((runStrategies gen t xs).1 ++ (runStrategies gen t ys).1,
       (runStrategies gen t xs).2.1 ++ (runStrategies gen t ys).2.1,
       (runStrategies gen t xs).2.2 ++ (runStrategies gen t ys).2.2) := by
  unfold runStrategies
  rw [List.foldl_append]
  rw [foldl_stratStep gen t ys (List.foldl (stratStep gen t) ([], [], []) xs)]
  rfl

/-! Evaluation lemmas for the two concrete strategies. -/

theorem posOf_ensureSymbol (led : Ledger) (sym : String) :
    posOf (ensureSymbol led sym) sym = posOf led sym := by
  unfold posOf
  rw [ensureSymbol_lookup_self]
  rfl

theorem smaOf_of_le {prices : List ℚ} {n : Nat} (h : n ≤ prices.length) :
    smaOf prices n = some (smaVal prices n) := by
  simp [smaOf, smaVal, not_lt.mpr h]

theorem maGen_eval (s : MAState) (t : MarketDataPoint) (hsym : t.symbol = s.symbol)
    (hlen : ¬ (dequePush s.slow s.prices t.price).length < s.slow)
    (hfast : s.fast ≤ (dequePush s.slow s.prices t.price).length) :
    maGen s t =
      ((match s.prevDiff with
        | some pd =>
          if pd ≤ 0 ∧ 0 < smaVal (dequePush s.slow s.prices t.price) s.fast -
              smaVal (dequePush s.slow s.prices t.price) s.slow
          then [⟨"BUY", s.symbol, s.qty, t.price⟩]
          else if 0 ≤ pd ∧ smaVal (dequePush s.slow s.prices t.price) s.fast -
              smaVal (dequePush s.slow s.prices t.price) s.slow < 0
          then [⟨"SELL", s.symbol, s.qty, t.price⟩]
          else []
        | none => []),
       { s with prices := dequePush s.slow s.prices t.price,
                prevDiff := some (smaVal (dequePush s.slow s.prices t.price) s.fast -
                  smaVal (dequePush s.slow s.prices t.price) s.slow) }) := by
  have hslow : s.slow ≤ (dequePush s.slow s.prices t.price).length := not_lt.mp hlen
  unfold maGen
  rw [if_pos hsym, if_neg hlen, smaOf_of_le hfast, smaOf_of_le hslow]

theorem momGen_eval (s : MomState) (t : MarketDataPoint) (hsym : t.symbol = s.symbol)
    (hlen : ¬ (dequePush (s.lb + 1) s.prices t.price).length ≤ s.lb)
    (hpast : 0 < (dequePush (s.lb + 1) s.prices t.price).headI) :
    momGen s t =
      ((if s.th ≤ t.price / (dequePush (s.lb + 1) s.prices t.price).headI - 1
        then [⟨"BUY", s.symbol, s.qty, t.price⟩]
        else if t.price / (dequePush (s.lb + 1) s.prices t.price).headI - 1 ≤ -s.th
        then [⟨"SELL", s.symbol, s.qty, t.price⟩]
        else []),
       { s with prices := dequePush (s.lb + 1) s.prices t.price }) := by
  unfold momGen
  rw [if_pos hsym, if_neg hlen, if_neg (not_le.mpr hpast)]
  dsimp only
  split_ifs <;> rfl

/-! The claim theorems. -/

/-- Claim C2: `process` appends exactly one equity snapshot per input
tick — the equity curve grows by exactly the input tick count no matter
what the strategies and orders do — and the snapshot a tick appends is
`(tick.timestamp, cash + Σ quantity × last price)` over all recorded
positions, a missing price counting as 0. -/
theorem C2_equity_snapshots {S : Type} (gen : Gen S) (st : EngineState S)
    (ticks : List MarketDataPoint) (t : MarketDataPoint) :
    (process gen st ticks).equityCurve.length = st.equityCurve.length + ticks.length ∧
    (processTick gen st t).equityCurve = st.equityCurve ++
      [(t.timestamp,
        (tickAfterSignals gen st t).ledger.cash +
          ((tickAfterSignals gen st t).ledger.positions.map
            (fun sp => (sp.2.quantity : ℚ) *
              ((lookupA (tickAfterSignals gen st t).ledger.lastPrices sp.1).getD 0))).sum)] := by
  refine ⟨process_equity_len gen st ticks, ?_⟩
  rw [processTick_equityCurve, equity_eq_sum]

/-- Claim C2 witness: a concrete one-tick run of the momentum engine
appends exactly one snapshot. -/
theorem C2_equity_snapshots_witness :
    (process momGenE (initEngine [(⟨"A", 1, 0, 1, []⟩ : MomState)] 100 [])
      [⟨0, "A", 3⟩]).equityCurve.length = 1 :=
  (C2_equity_snapshots momGenE (initEngine [(⟨"A", 1, 0, 1, []⟩ : MomState)] 100 [])
    [⟨0, "A", 3⟩] ⟨0, "A", 3⟩).1

/-- Claim C3: a validated signal leads to exactly one history entry — the
executed order, created with status NEW, hence present in history with
its terminal status even when execution is rejected or errors — while a
signal failing validation (non-positive quantity or price; the normalized
side always passes the side check) appends nothing to history, touches
neither the ledger nor the random stream, and logs one OrderError. -/
theorem C3_history_gate {S : Type} (st : EngineState S) (sig : Sig) :
    ((sig.qty ≤ 0 ∨ sig.price ≤ 0) →
      (processSignal st sig).orderHistory = st.orderHistory ∧
      (processSignal st sig).ledger = st.ledger ∧
      (processSignal st sig).rng = st.rng ∧
      ∃ e, (processSignal st sig).errors = st.errors ++ [orderErrMsg e]) ∧
    (0 < sig.qty → 0 < sig.price →
      createOrder sig.action sig.symbol sig.qty sig.price =
        .ok (mkOrder sig.action sig.symbol sig.qty sig.price) ∧
      (mkOrder sig.action sig.symbol sig.qty sig.price).status = "NEW" ∧
      (processSignal st sig).orderHistory = st.orderHistory ++
        [(executeOrder st.rng.headI st.ledger
            (mkOrder sig.action sig.symbol sig.qty sig.price)).order]) := by
  constructor
  · intro hbad
    obtain ⟨e, he⟩ := createOrder_eq_error sig.action sig.symbol sig.qty sig.price hbad
    refine ⟨?_, ?_, ?_, e, ?_⟩ <;> simp [processSignal, he]
  · intro hq hp
    have h := (createOrder_eq_ok sig.action sig.symbol sig.qty sig.price
      (mkOrder sig.action sig.symbol sig.qty sig.price)).mpr ⟨hq, hp, rfl⟩
    refine ⟨h, rfl, ?_⟩
    simp [processSignal, h]

/-- Claim C3 witness: a zero-quantity signal leaves the history of a
fresh engine empty. -/
theorem C3_history_gate_witness :
    (processSignal (initEngine ([] : List MomState) 0 []) ⟨"BUY", "A", 0, 1⟩).orderHistory = [] :=
  (((C3_history_gate (initEngine ([] : List MomState) 0 [])
      ⟨"BUY", "A", 0, 1⟩).1 (Or.inl le_rfl)).1).trans rfl

/-- Claim C7: from any engine with nonnegative cash the ledger invariant
holds through all processing — cash stays nonnegative, every recorded
position keeps a nonnegative quantity and average price, and the average
price is 0 whenever the quantity is 0; moreover an unaffordable BUY is
rejected, and a successful SELL adds exactly its proceeds to cash. -/
theorem C7_ledger_invariant {S : Type} (gen : Gen S) (strategies : List S)
    (cash0 : ℚ) (rng : List Bool) (ticks : List MarketDataPoint)
    (hcash : 0 ≤ cash0) :
    LedgerInv (initEngine strategies cash0 rng).ledger ∧
    (∀ st : EngineState S, LedgerInv st.ledger → LedgerInv (process gen st ticks).ledger) ∧
    (∀ (led : Ledger) (o : Order), o.side = "BUY" →
      (ensureSymbol led o.symbol).cash < (o.quantity : ℚ) * o.price →
      (executeOrder false led o).order.status = "REJECTED") ∧
    (∀ (led : Ledger) (o : Order), o.side ≠ "BUY" →
      (executeOrder false led o).err = none →
      (executeOrder false led o).ledger.cash = led.cash + (o.quantity : ℚ) * o.price) := by
  refine ⟨⟨hcash, by simp [initEngine]⟩, fun st h => LedgerInv_process gen st ticks h, ?_, ?_⟩
  · intro led o hside hc
    rw [executeOrder_buy_reject led o hside hc]
  · intro led o hside herr
    by_cases hc : (posOf (ensureSymbol led o.symbol) o.symbol).quantity < o.quantity
    · rw [executeOrder_sell_reject led o hside hc] at herr
      simp at herr
    · rw [executeOrder_sell_fill led o hside hc]
      dsimp only
      rw [ensureSymbol_cash]

/-- Claim C7 witness: the invariant holds after a concrete momentum run. -/
theorem C7_ledger_invariant_witness :
    LedgerInv (process momGenE
      (initEngine [(⟨"A", 1, 0, 1, []⟩ : MomState)] 100 [false, false])
      [⟨0, "A", 3⟩, ⟨1, "A", 4⟩]).ledger :=
  (C7_ledger_invariant momGenE [(⟨"A", 1, 0, 1, []⟩ : MomState)] 100 [false, false]
      [⟨0, "A", 3⟩, ⟨1, "A", 4⟩] (by norm_num)).2.1 _
    (C7_ledger_invariant momGenE [(⟨"A", 1, 0, 1, []⟩ : MomState)] 100 [false, false]
      [⟨0, "A", 3⟩, ⟨1, "A", 4⟩] (by norm_num)).1

/-- Claim C8: the engine's side normalization sets BUY exactly when the
upcased action string equals "BUY"; every other action string becomes
SELL, and the resulting order is still accepted by validation whenever
quantity and price are positive — never rejected for its side. -/
theorem C8_side_normalization (action symbol : String) (qty : Int) (price : ℚ) :
    ((mkOrder action symbol qty price).side = "BUY" ↔ strUpper action = "BUY") ∧
    (strUpper action ≠ "BUY" → (mkOrder action symbol qty price).side = "SELL") ∧
    (0 < qty → 0 < price →
      createOrder action symbol qty price = .ok (mkOrder action symbol qty price)) := by
  refine ⟨?_, ?_, ?_⟩
  · by_cases h : strUpper action = "BUY" <;> simp [mkOrder, h]
  · intro h
    simp [mkOrder, h]
  · intro hq hp
    exact (createOrder_eq_ok action symbol qty price
      (mkOrder action symbol qty price)).mpr ⟨hq, hp, rfl⟩

/-- Claim C8 witness: the unexpected action "hold" maps to SELL and its
order is still created successfully. -/
theorem C8_side_normalization_witness :
    (mkOrder "hold" "A" 1 1).side = "SELL" ∧
    createOrder "hold" "A" 1 1 = .ok (mkOrder "hold" "A" 1 1) :=
  ⟨(C8_side_normalization "hold" "A" 1 1).2.1 (by decide),
   (C8_side_normalization "hold" "A" 1 1).2.2 (by decide) (by norm_num)⟩

/-- Claim C9: an order starts at status NEW as created, execution assigns
exactly one terminal status — ERROR precisely on the simulated failure,
REJECTED precisely on insufficient cash (BUY) or insufficient position
(SELL), FILLED precisely on the error-free executions — and the engine
only ever appends to the order history, whose entries all carry a
terminal status. -/
theorem C9_status_lifecycle {S : Type} (gen : Gen S) (st : EngineState S)
    (ticks : List MarketDataPoint) :
    (∀ (action symbol : String) (qty : Int) (price : ℚ) (o : Order),
      createOrder action symbol qty price = .ok o → o.status = "NEW") ∧
    (∀ (fail : Bool) (led : Ledger) (o : Order),
      TerminalStatus (executeOrder fail led o).order.status ∧
      ((executeOrder fail led o).order.status = "FILLED" ↔
        (executeOrder fail led o).err = none) ∧
      (fail = true → (executeOrder fail led o).order.status = "ERROR") ∧
      (fail = false → o.side = "BUY" →
        ((executeOrder fail led o).order.status = "REJECTED" ↔
          (ensureSymbol led o.symbol).cash < (o.quantity : ℚ) * o.price)) ∧
      (fail = false → o.side ≠ "BUY" →
        ((executeOrder fail led o).order.status = "REJECTED" ↔
          (posOf (ensureSymbol led o.symbol) o.symbol).quantity < o.quantity))) ∧
    (∃ tl, (process gen st ticks).orderHistory = st.orderHistory ++ tl ∧
      ∀ o ∈ tl, TerminalStatus o.status) := by
  refine ⟨?_, ?_, process_history gen st ticks⟩
  · intro action symbol qty price o h
    rw [((createOrder_eq_ok action symbol qty price o).mp h).2.2]
    rfl
  · intro fail led o
    cases fail with
    | true =>
      rw [executeOrder_fail]
      refine ⟨Or.inr (Or.inr rfl), by simp, fun _ => rfl, ?_, ?_⟩ <;>
        intro h <;> simp at h
    | false =>
      by_cases hside : o.side = "BUY"
      · by_cases hc : (ensureSymbol led o.symbol).cash < (o.quantity : ℚ) * o.price
        · rw [executeOrder_buy_reject led o hside hc]
          refine ⟨Or.inr (Or.inl rfl), by simp, by simp, ?_, ?_⟩
          · intro _ _
            simpa using hc
          · intro _ hs
            exact absurd hside hs
        · rw [executeOrder_buy_fill led o hside hc]
          refine ⟨Or.inl rfl, by simp, by simp, ?_, ?_⟩
          · intro _ _
            simpa using hc
          · intro _ hs
            exact absurd hside hs
      · by_cases hc : (posOf (ensureSymbol led o.symbol) o.symbol).quantity < o.quantity
        · rw [executeOrder_sell_reject led o hside hc]
          refine ⟨Or.inr (Or.inl rfl), by simp, by simp, ?_, ?_⟩
          · intro _ hs
            exact absurd hs hside
          · intro _ _
            simpa using hc
        · rw [executeOrder_sell_fill led o hside hc]
          refine ⟨Or.inl rfl, by simp, by simp, ?_, ?_⟩
          · intro _ hs
            exact absurd hs hside
          · intro _ _
            simpa using hc

/-- Claim C9 witness: a simulated failure stamps ERROR on a concrete
order. -/
theorem C9_status_lifecycle_witness :
    (executeOrder true ⟨0, [], []⟩ ⟨"A", 1, 1, "BUY", "NEW"⟩).order.status = "ERROR" :=
  ((C9_status_lifecycle momGenE (initEngine [] 0 []) []).2.1 true ⟨0, [], []⟩
    ⟨"A", 1, 1, "BUY", "NEW"⟩).2.2.1 rfl

/-- Claim C4: the MA crossover strategy emits nothing for foreign
symbols, nothing while the window holds fewer than `slow` prices, nothing
on the first computed difference, at most one signal per tick, and —
once a previous difference exists and the window is full — a BUY exactly
when the previous difference was ≤ 0 and the current one is > 0, a SELL
exactly when the previous was ≥ 0 and the current one is < 0, else
nothing. -/
theorem C4_ma_crossover (s : MAState) (t : MarketDataPoint)
    (hfast : 0 < s.fast) (hfs : s.fast < s.slow) :
    (t.symbol ≠ s.symbol → maGen s t = ([], s)) ∧
    (maGen s t).1.length ≤ 1 ∧
    (t.symbol = s.symbol → (dequePush s.slow s.prices t.price).length < s.slow →
      (maGen s t).1 = []) ∧
    (t.symbol = s.symbol → s.prevDiff = none → (maGen s t).1 = []) ∧
    (∀ pd, t.symbol = s.symbol → s.prevDiff = some pd →
      ¬ (dequePush s.slow s.prices t.price).length < s.slow →
      (maGen s t).1 =
        (if pd ≤ 0 ∧ 0 < smaVal (dequePush s.slow s.prices t.price) s.fast -
              smaVal (dequePush s.slow s.prices t.price) s.slow
         then [⟨"BUY", s.symbol, s.qty, t.price⟩]
         else if 0 ≤ pd ∧ smaVal (dequePush s.slow s.prices t.price) s.fast -
              smaVal (dequePush s.slow s.prices t.price) s.slow < 0
         then [⟨"SELL", s.symbol, s.qty, t.price⟩]
         else [])) := by
  refine ⟨?_, ?_, ?_, ?_, ?_⟩
  · intro h
    simp [maGen, h]
  · by_cases hsym : t.symbol = s.symbol
    · by_cases hlen : (dequePush s.slow s.prices t.price).length < s.slow
      · simp [maGen, hsym, hlen]
      · have hfast' : s.fast ≤ (dequePush s.slow s.prices t.price).length :=
          le_trans (le_of_lt hfs) (not_lt.mp hlen)
        rw [maGen_eval s t hsym hlen hfast']
        cases s.prevDiff with
        | none => simp
        | some pd =>
          dsimp only
          split_ifs <;> simp
    · simp [maGen, hsym]
  · intro hsym hlen
    simp [maGen, hsym, hlen]
  · intro hsym hnone
    by_cases hlen : (dequePush s.slow s.prices t.price).length < s.slow
    · simp [maGen, hsym, hlen]
    · have hfast' : s.fast ≤ (dequePush s.slow s.prices t.price).length :=
        le_trans (le_of_lt hfs) (not_lt.mp hlen)
      rw [maGen_eval s t hsym hlen hfast']
      simp [hnone]
  · intro pd hsym hpd hlen
    have hfast' : s.fast ≤ (dequePush s.slow s.prices t.price).length :=
      le_trans (le_of_lt hfs) (not_lt.mp hlen)
    rw [maGen_eval s t hsym hlen hfast']
    simp [hpd]

/-- Claim C4 witness: with fast 1 and slow 2, a previous difference of 0
and a rising price, the crossover emits one BUY. -/
theorem C4_ma_crossover_witness :
    (maGen ⟨"A", 1, 2, 7, [1], some 0⟩ ⟨0, "A", 2⟩).1 = [⟨"BUY", "A", 7, 2⟩] := by
  have h := (C4_ma_crossover ⟨"A", 1, 2, 7, [1], some 0⟩ ⟨0, "A", 2⟩
    (by norm_num) (by norm_num)).2.2.2.2 0 rfl rfl (by norm_num [dequePush])
  rw [h]
  norm_num [smaVal, dequePush]

/-- Claim C5: the momentum strategy emits nothing for foreign symbols,
nothing until `lookback + 1` observations are stored, nothing when the
oldest price of the window is nonpositive, at most one signal per tick,
and otherwise a BUY exactly when the return over the window is at least
the threshold, a SELL exactly when it is at most minus the threshold,
else nothing. -/
theorem C5_momentum (s : MomState) (t : MarketDataPoint)
    (hlb : 0 < s.lb) (hth : 0 ≤ s.th) :
    (t.symbol ≠ s.symbol → momGen s t = ([], s)) ∧
    (momGen s t).1.length ≤ 1 ∧
    (t.symbol = s.symbol → (dequePush (s.lb + 1) s.prices t.price).length ≤ s.lb →
      (momGen s t).1 = []) ∧
    (t.symbol = s.symbol → ¬ (dequePush (s.lb + 1) s.prices t.price).length ≤ s.lb →
      (dequePush (s.lb + 1) s.prices t.price).headI ≤ 0 → (momGen s t).1 = []) ∧
    (t.symbol = s.symbol → ¬ (dequePush (s.lb + 1) s.prices t.price).length ≤ s.lb →
      0 < (dequePush (s.lb + 1) s.prices t.price).headI →
      (momGen s t).1 =
        (if s.th ≤ t.price / (dequePush (s.lb + 1) s.prices t.price).headI - 1
         then [⟨"BUY", s.symbol, s.qty, t.price⟩]
         else if t.price / (dequePush (s.lb + 1) s.prices t.price).headI - 1 ≤ -s.th
         then [⟨"SELL", s.symbol, s.qty, t.price⟩]
         else [])) := by
  refine ⟨?_, ?_, ?_, ?_, ?_⟩
  · intro h
    simp [momGen, h]
  · by_cases hsym : t.symbol = s.symbol
    · by_cases hlen : (dequePush (s.lb + 1) s.prices t.price).length ≤ s.lb
      · simp [momGen, hsym, hlen]
      · by_cases hpast : (dequePush (s.lb + 1) s.prices t.price).headI ≤ 0
        · simp [momGen, hsym, hlen, hpast]
        · rw [momGen_eval s t hsym hlen (not_le.mp hpast)]
          dsimp only
          split_ifs <;> simp
    · simp [momGen, hsym]
  · intro hsym hlen
    simp [momGen, hsym, hlen]
  · intro hsym hlen hpast
    simp [momGen, hsym, hlen, hpast]
  · intro hsym hlen hpast
    rw [momGen_eval s t hsym hlen hpast]

/-- Claim C5 witness: with lookback 1 and threshold 0, a rising price
emits one BUY. -/
theorem C5_momentum_witness :
    (momGen ⟨"A", 1, 0, 5, [2]⟩ ⟨0, "A", 3⟩).1 = [⟨"BUY", "A", 5, 3⟩] := by
  have h := (C5_momentum ⟨"A", 1, 0, 5, [2]⟩ ⟨0, "A", 3⟩ (by norm_num)
    le_rfl).2.2.2.2 rfl (by norm_num [dequePush]) (by norm_num [dequePush])
  rw [h]
  norm_num [dequePush]

/-- Claim C10: when the threshold is 0 and the computed return is exactly
0, both the BUY and the SELL condition hold, and the momentum strategy
emits the BUY — the BUY branch takes precedence. -/
theorem C10_buy_precedence (s : MomState) (t : MarketDataPoint)
    (hth : s.th = 0) (hsym : t.symbol = s.symbol)
    (hlen : ¬ (dequePush (s.lb + 1) s.prices t.price).length ≤ s.lb)
    (hpast : 0 < (dequePush (s.lb + 1) s.prices t.price).headI)
    (hret : t.price / (dequePush (s.lb + 1) s.prices t.price).headI - 1 = 0) :
    s.th ≤ t.price / (dequePush (s.lb + 1) s.prices t.price).headI - 1 ∧
    t.price / (dequePush (s.lb + 1) s.prices t.price).headI - 1 ≤ -s.th ∧
    (momGen s t).1 = [⟨"BUY", s.symbol, s.qty, t.price⟩] := by
  refine ⟨by rw [hret, hth], by rw [hret, hth]; norm_num, ?_⟩
  rw [momGen_eval s t hsym hlen hpast]
  simp [hret, hth]

/-- Claim C10 witness: a flat price with threshold 0 emits a BUY. -/
theorem C10_buy_precedence_witness :
    (momGen ⟨"A", 1, 0, 2, [5]⟩ ⟨0, "A", 5⟩).1 = [⟨"BUY", "A", 2, 5⟩] :=
  (C10_buy_precedence ⟨"A", 1, 0, 2, [5]⟩ ⟨0, "A", 5⟩ rfl rfl
    (by norm_num [dequePush]) (by norm_num [dequePush]) (by norm_num [dequePush])).2.2

/-- Claim C1 counterexample: a BUY rejected for insufficient cash on a
previously untraded symbol lazily creates a zero-quantity entry through
`_ensure_symbol`, so this failing call does not leave the set of recorded
positions unchanged. -/
theorem C1_counterexample :
    (executeOrder false ⟨1, [], []⟩ ⟨"A", 1, 2, "BUY", "NEW"⟩).err.isSome = true ∧
    (executeOrder false ⟨1, [], []⟩ ⟨"A", 1, 2, "BUY", "NEW"⟩).order.status = "REJECTED" ∧
    (executeOrder false ⟨1, [], []⟩ ⟨"A", 1, 2, "BUY", "NEW"⟩).ledger.positions ≠
      (Ledger.mk 1 [] []).positions := by
  have hc : (ensureSymbol ⟨1, [], []⟩ "A").cash < ((1 : Int) : ℚ) * 2 := by
    norm_num [ensureSymbol, lookupA]
  have h := executeOrder_buy_reject ⟨1, [], []⟩ ⟨"A", 1, 2, "BUY", "NEW"⟩ rfl hc
  rw [h]
  refine ⟨rfl, rfl, ?_⟩
  simp [ensureSymbol, lookupA]

/-- Claim C1 (amended): a failing `_execute_order` never changes cash,
last prices, or any already-recorded position entry; the simulated-failure
path leaves the whole ledger untouched, and the only possible change on a
rejection is the lazy creation of a zero-quantity, zero-average-price
entry for the order's symbol when it was not yet recorded. A successful
execution applies exactly its branch's effect: a BUY debits the cost from
cash and applies the weighted-average-cost update to the order's symbol,
a SELL credits the proceeds and decrements the position, resetting the
average price to 0 when the quantity reaches 0; no other entry moves. -/
theorem C1_atomic_execution (fail : Bool) (led : Ledger) (o : Order)
    (hq : 0 < o.quantity) (hp : 0 < o.price) :
    ((executeOrder fail led o).err.isSome →
      (executeOrder fail led o).ledger.cash = led.cash ∧
      (executeOrder fail led o).ledger.lastPrices = led.lastPrices ∧
      (∀ sym p, lookupA led.positions sym = some p →
        lookupA (executeOrder fail led o).ledger.positions sym = some p) ∧
      ((executeOrder fail led o).ledger.positions = led.positions ∨
        (lookupA led.positions o.symbol = none ∧
          (executeOrder fail led o).ledger.positions =
            led.positions ++ [(o.symbol, ⟨0, 0⟩)]))) ∧
    (fail = true → (executeOrder fail led o).ledger = led) ∧
    ((executeOrder fail led o).err = none →
      (executeOrder fail led o).ledger.lastPrices = led.lastPrices ∧
      (∀ s', s' ≠ o.symbol →
        lookupA (executeOrder fail led o).ledger.positions s' =
          lookupA led.positions s') ∧
      (o.side = "BUY" →
        ¬ led.cash < (o.quantity : ℚ) * o.price ∧
        (executeOrder fail led o).ledger.cash = led.cash - (o.quantity : ℚ) * o.price ∧
        lookupA (executeOrder fail led o).ledger.positions o.symbol =
          some ⟨(posOf led o.symbol).quantity + o.quantity,
            if (posOf led o.symbol).quantity + o.quantity = 0 then 0
            else ((posOf led o.symbol).avg_price * ((posOf led o.symbol).quantity : ℚ) +
                (o.quantity : ℚ) * o.price) /
              (((posOf led o.symbol).quantity + o.quantity : Int) : ℚ)⟩) ∧
      (o.side ≠ "BUY" →
        ¬ (posOf led o.symbol).quantity < o.quantity ∧
        (executeOrder fail led o).ledger.cash = led.cash + (o.quantity : ℚ) * o.price ∧
        lookupA (executeOrder fail led o).ledger.positions o.symbol =
          some ⟨(posOf led o.symbol).quantity - o.quantity,
            if (posOf led o.symbol).quantity - o.quantity = 0 then 0
            else (posOf led o.symbol).avg_price⟩)) := by
  cases fail with
  | true =>
    rw [executeOrder_fail]
    refine ⟨?_, fun _ => rfl, ?_⟩
    · intro _
      exact ⟨rfl, rfl, fun _ _ h => h, Or.inl rfl⟩
    · intro h
      simp at h
  | false =>
    by_cases hside : o.side = "BUY"
    · by_cases hc : (ensureSymbol led o.symbol).cash < (o.quantity : ℚ) * o.price
      · rw [executeOrder_buy_reject led o hside hc]
        refine ⟨?_, ?_, ?_⟩
        · intro _
          exact ⟨ensureSymbol_cash led o.symbol, ensureSymbol_lastPrices led o.symbol,
            fun _ _ h => ensureSymbol_lookup_some h, ensureSymbol_positions led o.symbol⟩
        · intro h
          simp at h
        · intro h
          simp at h
      · rw [executeOrder_buy_fill led o hside hc]
        refine ⟨?_, ?_, ?_⟩
        · intro h
          simp at h
        · intro h
          simp at h
        · intro _
          dsimp only
          rw [ensureSymbol_cash] at hc
          refine ⟨ensureSymbol_lastPrices led o.symbol, ?_, ?_, fun h => absurd hside h⟩
          · intro s' hs'
            rw [lookupA_updA_ne _ _ hs', ensureSymbol_lookup_ne hs']
          · intro _
            refine ⟨hc, by rw [ensureSymbol_cash], ?_⟩
            rw [lookupA_updA_self, posOf_ensureSymbol]
    · by_cases hc : (posOf (ensureSymbol led o.symbol) o.symbol).quantity < o.quantity
      · rw [executeOrder_sell_reject led o hside hc]
        refine ⟨?_, ?_, ?_⟩
        · intro _
          exact ⟨ensureSymbol_cash led o.symbol, ensureSymbol_lastPrices led o.symbol,
            fun _ _ h => ensureSymbol_lookup_some h, ensureSymbol_positions led o.symbol⟩
        · intro h
          simp at h
        · intro h
          simp at h
      · rw [executeOrder_sell_fill led o hside hc]
        refine ⟨?_, ?_, ?_⟩
        · intro h
          simp at h
        · intro h
          simp at h
        · intro _
          dsimp only
          rw [posOf_ensureSymbol] at hc
          refine ⟨ensureSymbol_lastPrices led o.symbol, ?_, fun h => absurd h hside, ?_⟩
          · intro s' hs'
            rw [lookupA_updA_ne _ _ hs', ensureSymbol_lookup_ne hs']
          · intro _
            refine ⟨hc, by rw [ensureSymbol_cash], ?_⟩
            rw [lookupA_updA_self, posOf_ensureSymbol]

/-- Claim C1 witness: a simulated failure leaves a concrete ledger
exactly as it was. -/
theorem C1_atomic_execution_witness :
    (executeOrder true ⟨5, [], []⟩ ⟨"A", 1, 2, "BUY", "NEW"⟩).ledger = ⟨5, [], []⟩ :=
  (C1_atomic_execution true ⟨5, [], []⟩ ⟨"A", 1, 2, "BUY", "NEW"⟩
    (by norm_num) (by norm_num)).2.1 rfl

/-- Claim C6: when a strategy raises on a tick, exactly one StrategyError
message containing the tick's timestamp is appended for it, it
contributes no signals, the surrounding strategies all still run with
their signals, errors and new states untouched, the tick still appends
its equity snapshot, and `process` still completes over the full tick
sequence, one snapshot per tick. -/
theorem C6_strategy_isolation {S : Type} (gen : Gen S) (t : MarketDataPoint)
    (pre post : List S) (s s1 : S) (e : String)
    (hraise : gen s t = .error (e, s1)) :
    (runStrategies gen t (pre ++ s :: post)).2.1 =
      (runStrategies gen t pre).2.1 ++ (runStrategies gen t post).2.1 ∧
    (runStrategies gen t (pre ++ s :: post)).2.2 =
      (runStrategies gen t pre).2.2 ++
        stratErrMsg e t.timestamp :: (runStrategies gen t post).2.2 ∧
    (runStrategies gen t (pre ++ s :: post)).1 =
      (runStrategies gen t pre).1 ++ s1 :: (runStrategies gen t post).1 ∧
    (∃ a, stratErrMsg e t.timestamp = a ++ toString t.timestamp) ∧
    (∀ st : EngineState S, (processTick gen st t).equityCurve =
      st.equityCurve ++ [(t.timestamp, (tickAfterSignals gen st t).ledger.equity)]) ∧
    (∀ (st : EngineState S) (ticks : List MarketDataPoint),
      (process gen st ticks).equityCurve.length =
        st.equityCurve.length + ticks.length) := by
  have hsingle : runStrategies gen t (s :: post) =
      (s1 :: (runStrategies gen t post).1, (runStrategies gen t post).2.1,
        stratErrMsg e t.timestamp :: (runStrategies gen t post).2.2) := by
    unfold runStrategies
    simp only [List.foldl_cons]
    rw [foldl_stratStep gen t post (stratStep gen t ([], [], []) s)]
    simp [stratStep, hraise, runStrategies]
  rw [runStrategies_append gen t pre (s :: post), hsingle]
  refine ⟨rfl, rfl, rfl, ⟨"StrategyError: " ++ e ++ " at ", rfl⟩,
    fun st => processTick_equityCurve gen st t,
    fun st ticks => process_equity_len gen st ticks⟩

/-- Claim C6 witness: a strategy raising "boom" yields exactly its one
error message and the tick still snapshots. -/
theorem C6_strategy_isolation_witness :
    (runStrategies (fun _ _ => .error ("boom", ())) ⟨0, "A", 1⟩ [()]).2.2 =
      [stratErrMsg "boom" 0] := by
  have h := (C6_strategy_isolation (fun _ _ => .error ("boom", ()))
    ⟨0, "A", 1⟩ [] [] () () "boom" rfl).2.1
  simpa [runStrategies] using h

end Backtester
